import Mathlib

/-!
# Verification of the multi-tenant clicks fan-out/aggregation engine

Shallow embedding of `clicks_email_report.py`: the tenant registry rows,
the per-tenant Mongo aggregation pipeline (`fetch_views`), the per-tenant
worker (`process_domain`), the thread-pool fan-out and `as_completed`
collection loop, the delete-then-insert persistence step, the
`defaultdict`-based aggregation fold, and the rendering decisions of
`build_html` (sorting, table gating, summary totals).

External collaborators (the remote Mongo databases, the Google sheet, SMTP)
are modelled as inputs: a store-registry lookup function, a per-tenant
connect/query oracle returning either the raw `userAnalytics` event list or
a raised exception (`Except.error`), and explicit state lists for the
persisted stats collection.
-/

namespace ClicksReport

/-! ## Helpers (from the HELPERS section of the source) -/

/-- ASCII whitespace, the characters `str.strip()` removes (restricted to
the ASCII range, which is all that occurs in the sheet fields). -/
def isSpaceChar (ch : Char) : Bool :=
  ch = ' ' || ch = '\t' || ch = '\n' || ch = '\r'

/-- `str.strip()` on the character list: drop whitespace from both ends. -/
def trimChars (l : List Char) : List Char :=
  ((l.dropWhile isSpaceChar).reverse.dropWhile isSpaceChar).reverse

/-- `str.lower()` on one character (ASCII case folding). -/
def lowerChar (ch : Char) : Char :=
  if 65 ≤ ch.toNat ∧ ch.toNat ≤ 90 then Char.ofNat (ch.toNat + 32) else ch

/-- `normalize_type`: `str(t or "").strip().lower()`. -/
def normalize_type (t : String) : String :=
  String.mk ((trimChars t.data).map lowerChar)

/-- `is_table_domain`: membership of the normalized domain type in the
fixed set of table-eligible classifications. -/
def is_table_domain (domain_type : String) : Bool :=
  let n := normalize_type domain_type
  n == "programmatic" || n == "direct apply" || n == "direct_apply" || n == "direct-apply"

/-! ## Tenant registry rows

One normalized row of the "Domains" worksheet: all fields already trimmed
(the source trims every field right after `get_all_records`). -/

structure TenantRow where
  Domain : String
  Database : String
  DomainType : String
  EmployerId : String
  Collection : String
deriving DecidableEq

/-! ## Raw analytics events

One document of a tenant's `userAnalytics` collection, restricted to the
fields the pipeline reads.  `createdDt` is the event timestamp as an
integer number of seconds since the epoch (the `$gt`/`$lt` comparisons in
the `$match` stage are order comparisons on timestamps); `createdDtStr` is
its string form, from which the `$substr` stage takes the first 10
characters as the calendar date. -/

structure Event where
  isBot : Bool
  browserType : String
  deviceType : String
  isFromGoogle : Bool
  createdDt : Int
  createdDtStr : String
  company : Option String
  companyName : Option String
  url : Option String
  ipAddress : String
  employerId : String
deriving DecidableEq

/-- The `$match` stage of `fetch_views`:
`isBot: False`, `browserType: {$ne: "Unknown"}`, `deviceType: {$ne: "Unknown"}`,
`isFromGoogle: True`, `createdDt: {$gt: MIN_DT, $lt: MAX_DT}`, and
`employerId: employer_id` added only when `employer_id` is non-empty
(Python truthiness of the trimmed string). -/
def matchFilter (mnDt mxDt : Int) (employer_id : String) (e : Event) : Bool :=
  !e.isBot
    && e.browserType != "Unknown"
    && e.deviceType != "Unknown"
    && e.isFromGoogle
    && decide (mnDt < e.createdDt)
    && decide (e.createdDt < mxDt)
    && (employer_id == "" || e.employerId == employer_id)

/-- `$split` on a one-character delimiter: splits the character list into
the segments between occurrences of `c`; the empty list yields `[[]]`,
matching `$split`'s behaviour on the empty string. -/
def splitChar (c : Char) : List Char → List (List Char)
  | [] => [[]]
  | a :: rest =>
    match splitChar c rest with
    | [] => [[]]
    | g :: gs => if a = c then [] :: g :: gs else (a :: g) :: gs

/-- The "End Url Domain" `$addFields` stage:
`$ifNull [$arrayElemAt [$split [$ifNull [url, ""], "/"], 2], ""]` —
the element at index 2 of the slash-split of the url (a missing url is
treated as `""`), defaulting to `""` when the split has no index 2. -/
def endUrlDomain (url : Option String) : String :=
  (((splitChar '/' (url.getD "").data).get? 2).map String.mk).getD ""

/-- Intermediate shape after the `$project` + `$addFields` stages: derived
company name, 10-character date prefix, destination host, ip address. -/
structure PreRow where
  Company : String
  endD : String
  date : String
  ip : String
deriving DecidableEq

/-- The `$project` stage (company fallback chain, `$substr` date) combined
with the `$addFields` host derivation. -/
def preOf (e : Event) : PreRow :=
  { Company := e.company.getD (e.companyName.getD "Unknown")
    endD := endUrlDomain e.url
    date := String.mk (e.createdDtStr.data.take 10)
    ip := e.ipAddress }

/-- Grouping key of the `$group` stage: `(Company, End Url Domain, Date)`. -/
def gKey (p : PreRow) : String × String × String :=
  (p.Company, p.endD, p.date)

/-- First-occurrence deduplication (auxiliary accumulator form): used to
enumerate the distinct `$group` keys and to model `$addToSet` followed by
`$size` (the number of distinct values). -/
def firstDedupAux {α : Type} [DecidableEq α] : List α → List α → List α
  | [], acc => acc
  | a :: l, acc => firstDedupAux l (if a ∈ acc then acc else acc ++ [a])

/-- First-occurrence deduplication of a list. -/
def firstDedup {α : Type} [DecidableEq α] (l : List α) : List α :=
  firstDedupAux l []

/-! ## Normalized view records

The output shape of `fetch_views`' final `$project` stage: one record per
distinct `(Company, End Url Domain, Date)` group, with `Domain` and
`Domain Type` attached from the tenant row. -/

structure Row where
  Date : String
  Company : String
  EndUrlDomain : String
  ViewsCount : Nat
  UniqueIpCount : Nat
  Domain : String
  DomainType : String
deriving DecidableEq

/-- `fetch_views`: run the aggregation pipeline over the tenant's
`userAnalytics` events. Mongo reports the `$group` output in unspecified
order; we enumerate the groups in order of first occurrence (a concrete
choice; order is re-sorted downstream). `ViewsCount` is `{$sum: 1}` (the
group size) and `UniqueIpCount` is `{$size: {$addToSet: "$ipAddress"}}`
(the number of distinct ip addresses in the group). -/
def fetch_views (domain : String) (events : List Event) (employer_id : String)
    (domain_type : String) (mnDt mxDt : Int) : List Row :=
  let pres := (events.filter (matchFilter mnDt mxDt employer_id)).map preOf
  (firstDedup (pres.map gKey)).map (fun k =>
    let g := pres.filter (fun p => decide (gKey p = k))
    { Date := k.2.2
      Company := k.1
      EndUrlDomain := k.2.1
      ViewsCount := g.length
      UniqueIpCount := (firstDedup (g.map (fun p => p.ip))).length
      Domain := domain
      DomainType := domain_type })

/-! ## Fan-out: `process_domain`, the thread-pool submit loop and the
`as_completed` collection loop -/

/-- A stored connection descriptor from the central `mongo_creds.creds`
collection (the source only reads its `mongo_uri`). -/
structure StoreRec where
  mongo_uri : String
deriving DecidableEq

/-- The external collaborators a worker task touches:
`storeLookup` models `domains_col.find_one({"domain": database})` and
`fetchEvents` models `connect_mongo` (connect + ping) followed by reading
the tenant's `userAnalytics` collection — an `Except.error` is a raised
exception (server-selection timeout, auth failure, query failure). -/
structure FanEnv where
  storeLookup : String → Option StoreRec
  fetchEvents : TenantRow → StoreRec → Except String (List Event)

/-- `process_domain`: blank `Domain` or `Database` returns `[]` at once;
a store-registry lookup miss returns `[]`; otherwise connect and run the
pipeline, propagating any raised exception. -/
def process_domain (env : FanEnv) (mnDt mxDt : Int) (row : TenantRow) :
    Except String (List Row) :=
  if row.Domain == "" || row.Database == "" then .ok []
  else
    match env.storeLookup row.Database with
    | none => .ok []
    | some rec =>
      (env.fetchEvents row rec).map (fun evs =>
        fetch_views row.Domain evs row.EmployerId row.DomainType mnDt mxDt)

/-- The submit loop `[ex.submit(process_domain, r) for r in domains_rows]`:
one future per registry row, modelled by the task's eventual outcome. -/
def futuresOf (env : FanEnv) (mnDt mxDt : Int) (reg : List TenantRow) :
    List (Except String (List Row)) :=
  reg.map (process_domain env mnDt mxDt)

/-- The collection loop `for f in as_completed(futures):
all_rows.extend(f.result())`, applied to the futures' outcomes in some
completion order: `f.result()` re-raises a task's exception, aborting the
loop and propagating the error out of the fan-out. -/
def collectResults : List (Except String (List Row)) → Except String (List Row)
  | [] => .ok []
  | .error e :: _ => .error e
  | .ok rs :: rest => (collectResults rest).map (fun acc => rs ++ acc)

/-- Payload of a completed future, `[]` for an error (used only to state
the all-successful case of the collection loop). -/
def okD : Except String (List Row) → List Row
  | .ok l => l
  | .error _ => []

/-! ## Persistence: the RUN STATS section

`stats_col.delete_many({"Date": REPORT_DATE})`, stamping `InsertedAt`, and
the guarded `if all_rows: stats_col.insert_many(all_rows)`.  The stats
collection is modelled as a list of (record, insertion time) pairs;
`insert_many` raises `InvalidOperation` on an empty document list (pymongo
behaviour), which is exactly what the `if all_rows:` guard avoids. -/

/-- Stamp every record with the insertion wall-clock time
(`r["InsertedAt"] = datetime.now(timezone.utc)`). -/
def stamp (rows : List Row) (now : Nat) : List (Row × Nat) :=
  rows.map (fun r => (r, now))

/-- `stats_col.delete_many({"Date": d})`: drop every stored record whose
`Date` equals the target date. -/
def delete_many (st : List (Row × Nat)) (d : String) : List (Row × Nat) :=
  st.filter (fun s => !(s.1.Date == d))

/-- `stats_col.insert_many(docs)`: append the documents; pymongo raises
`InvalidOperation` when `docs` is empty. -/
def insert_many (st : List (Row × Nat)) (docs : List (Row × Nat)) :
    Except String (List (Row × Nat)) :=
  if docs.isEmpty then .error "InvalidOperation: documents must be a non-empty list"
  else .ok (st ++ docs)

/-- The whole persistence step for one run: delete this date's records,
then insert the stamped records unless the collected list is empty. -/
def persistRun (st : List (Row × Nat)) (d : String) (rows : List Row) (now : Nat) :
    Except String (List (Row × Nat)) :=
  let st1 := delete_many st d
  if rows.isEmpty then .ok st1 else insert_many st1 (stamp rows now)

/-! ## Aggregation: the `defaultdict` fold

`domains` is a `defaultdict` mapping domain name to
`{"type": "", "clicks": 0, "ips": 0, "rows": defaultdict(... 0 ...)}`.
Python dicts preserve insertion order, so the map is modelled as an
association list with defaultdict-style access: updating an absent key
appends `(key, f default)` at the end. -/

/-- Per-(company, destination host) sub-totals. -/
structure SubStat where
  clicks : Nat
  ips : Nat
deriving DecidableEq

/-- One per-domain aggregate entry. -/
structure DomainAgg where
  dtype : String
  clicks : Nat
  ips : Nat
  rows : List ((String × String) × SubStat)
deriving DecidableEq

/-- The defaultdict's default domain entry. -/
def dAggDefault : DomainAgg := { dtype := "", clicks := 0, ips := 0, rows := [] }

/-- The inner defaultdict's default sub-entry. -/
def subDefault : SubStat := { clicks := 0, ips := 0 }

/-- defaultdict read: the value at `k`, or the default when absent. -/
def alFind {α β : Type} [DecidableEq α] (dflt : β) (k : α) : List (α × β) → β
  | [] => dflt
  | (k', v) :: rest => if k' = k then v else alFind dflt k rest

/-- defaultdict access-and-mutate: apply `f` to the value at `k`, creating
`(k, f dflt)` at the end when `k` is absent (Python dict insertion order). -/
def alUpdate {α β : Type} [DecidableEq α] (dflt : β) (f : β → β) (k : α) :
    List (α × β) → List (α × β)
  | [] => [(k, f dflt)]
  | (k', v) :: rest =>
    if k' = k then (k', f v) :: rest else (k', v) :: alUpdate dflt f k rest

/-- The aggregate map type: insertion-ordered association list. -/
def Domains : Type := List (String × DomainAgg)

/-- One step of the shell loop: `if r["Domain"]:
domains[r["Domain"]]["type"] = r["Domain Type"]`. -/
def shellStep (ds : Domains) (r : TenantRow) : Domains :=
  if r.Domain = "" then ds
  else alUpdate dAggDefault (fun d => { d with dtype := r.DomainType }) r.Domain ds

/-- The shell loop over the registry rows. -/
def buildShells (reg : List TenantRow) : Domains :=
  reg.foldl shellStep []

/-- One step of the record fold: `d = domains[r["Domain"]]` followed by the
in-place `+=` mutations of the domain totals and of the
`(Company, End Url Domain)` sub-entry. -/
def foldRow (ds : Domains) (r : Row) : Domains :=
  alUpdate dAggDefault
    (fun d =>
      { d with
        clicks := d.clicks + r.ViewsCount
        ips := d.ips + r.UniqueIpCount
        rows := alUpdate subDefault
          (fun s => { s with clicks := s.clicks + r.ViewsCount, ips := s.ips + r.UniqueIpCount })
          (r.Company, r.EndUrlDomain) d.rows })
    r.Domain ds

/-- The whole AGGREGATION section: shells from the registry, then the fold
over the collected flat record list. -/
def buildDomains (reg : List TenantRow) (rows : List Row) : Domains :=
  rows.foldl foldRow (buildShells reg)

/-! ## Rendering decisions of `build_html`

The HTML text itself is presentation; what is modelled is the rendered
structure: summary totals, the sorted domain blocks, and for each block
whether a breakdown table is present and which sub-rows it shows.
`sorted(..., key=clicks, reverse=True)` is Python's stable sort in
descending key order, modelled by a stable descending insertion sort. -/

/-- Insert `x` into `l` before the first element whose key is less than or
equal to `key x` (elements passed over have strictly greater keys), the
insertion step of a stable descending sort. -/
def insertDesc {α : Type} (key : α → Nat) (x : α) : List α → List α
  | [] => [x]
  | y :: ys => if key x < key y then y :: insertDesc key x ys else x :: y :: ys

/-- Stable sort by descending key: `sorted(l, key=key, reverse=True)`. -/
def sortDesc {α : Type} (key : α → Nat) : List α → List α
  | [] => []
  | x :: xs => insertDesc key x (sortDesc key xs)

/-- `sorted(domains.items(), key=lambda x: x[1]["clicks"], reverse=True)`. -/
def sortDomains (ds : Domains) : Domains :=
  sortDesc (fun p => p.2.clicks) ds

/-- `sorted(d["rows"].items(), key=lambda kv: kv[1]["clicks"], reverse=True)`. -/
def sortSubRows (rs : List ((String × String) × SubStat)) :
    List ((String × String) × SubStat) :=
  sortDesc (fun p => p.2.clicks) rs

/-- The rendered structure of one domain block: always the domain name,
type badge and the domain totals; a breakdown table (`some` rows) only for
table-eligible classifications. -/
structure Block where
  domain : String
  domainType : String
  clicks : Nat
  ips : Nat
  table : Option (List ((String × String) × SubStat))
deriving DecidableEq

/-- The domain-blocks loop of `build_html`: domains in descending-clicks
stable order; for a table-eligible type the table holds the sub-rows in
descending-clicks stable order minus those with an empty destination host
(`if not end: continue`); otherwise no table at all. -/
def renderBlocks (ds : Domains) : List Block :=
  (sortDomains ds).map (fun p =>
    { domain := p.1
      domainType := p.2.dtype
      clicks := p.2.clicks
      ips := p.2.ips
      table :=
        if is_table_domain p.2.dtype then
          some ((sortSubRows p.2.rows).filter (fun kv => !(kv.1.2 == "")))
        else none })

/-- `total_domains = len(domains)` in the summary header. -/
def total_domains (ds : Domains) : Nat :=
  ds.length

/-- `total_clicks = sum(d["clicks"] for d in domains.values())`. -/
def total_clicks (ds : Domains) : Nat :=
  (ds.map (fun p => p.2.clicks)).sum

/-- `total_ips = sum(d["ips"] for d in domains.values())`. -/
def total_ips (ds : Domains) : Nat :=
  (ds.map (fun p => p.2.ips)).sum

/-! ## Statement helpers -/

/-- The collected records carrying a given domain name. -/
def rowsFor (rows : List Row) (dom : String) : List Row :=
  rows.filter (fun r => decide (r.Domain = dom))

/-- The collected records carrying a given domain name and a given
(company, destination host) sub-key. -/
def rowsForKey (rows : List Row) (dom : String) (key : String × String) : List Row :=
  rows.filter (fun r => decide (r.Domain = dom ∧ (r.Company, r.EndUrlDomain) = key))

/-- Sum of the `clicks` of a domain entry's sub-rows. -/
def subSumClicks (d : DomainAgg) : Nat :=
  (d.rows.map (fun p => p.2.clicks)).sum

/-- Sum of the `ips` of a domain entry's sub-rows. -/
def subSumIps (d : DomainAgg) : Nat :=
  (d.rows.map (fun p => p.2.ips)).sum

/-- The classification the shell loop leaves on a domain: the `Domain Type`
of the last registry row with that (non-empty) domain name, `""` if none. -/
def lastTypeFor (reg : List TenantRow) (dom : String) : String :=
  reg.foldl (fun acc r => if r.Domain ≠ "" ∧ r.Domain = dom then r.DomainType else acc) ""

/-! ## Association-list (defaultdict) lemmas -/

theorem alFind_alUpdate_same {α β : Type} [DecidableEq α] (dflt : β) (f : β → β)
    (k : α) (m : List (α × β)) :
    alFind dflt k (alUpdate dflt f k m) = f (alFind dflt k m) := by
  induction m with
  | nil => simp [alFind, alUpdate]
  | cons p rest ih =>
    obtain ⟨k', v⟩ := p
    by_cases h : k' = k
    · subst h; simp [alFind, alUpdate]
    · simp [alFind, alUpdate, h, ih]

theorem alFind_alUpdate_ne {α β : Type} [DecidableEq α] (dflt : β) (f : β → β)
    (k j : α) (m : List (α × β)) (h : j ≠ k) :
    alFind dflt j (alUpdate dflt f k m) = alFind dflt j m := by
  induction m with
  | nil => simp [alFind, alUpdate, Ne.symm h]
  | cons p rest ih =>
    obtain ⟨k', v⟩ := p
    by_cases hk : k' = k
    · subst hk; simp [alFind, alUpdate, Ne.symm h]
    · simp [alFind, alUpdate, hk, ih]

theorem alUpdate_keys_mem {α β : Type} [DecidableEq α] (dflt : β) (f : β → β)
    (k : α) (m : List (α × β)) (h : k ∈ m.map Prod.fst) :
    (alUpdate dflt f k m).map Prod.fst = m.map Prod.fst := by
  induction m with
  | nil => simp at h
  | cons p rest ih =>
    obtain ⟨k', v⟩ := p
    by_cases hk : k' = k
    · subst hk; simp [alUpdate]
    · simp [alUpdate, hk]
      apply ih
      rw [List.map_cons, List.mem_cons] at h
      rcases h with h | h
      · exact absurd h.symm hk
      · exact h

theorem alUpdate_keys_notmem {α β : Type} [DecidableEq α] (dflt : β) (f : β → β)
    (k : α) (m : List (α × β)) (h : k ∉ m.map Prod.fst) :
    (alUpdate dflt f k m).map Prod.fst = m.map Prod.fst ++ [k] := by
  induction m with
  | nil => simp [alUpdate]
  | cons p rest ih =>
    obtain ⟨k', v⟩ := p
    rw [List.map_cons, List.mem_cons] at h
    push_neg at h
    by_cases hk : k' = k
    · exact absurd hk.symm h.1
    · simp [alUpdate, hk]
      exact ih h.2

/-- Updating one sub-entry by `clicks += c, ips += i` raises the sum of the
sub-row clicks by exactly `c`. -/
theorem sum_clicks_alUpdate (c i : Nat) (k : String × String)
    (m : List ((String × String) × SubStat)) :
    ((alUpdate subDefault (fun s => { s with clicks := s.clicks + c, ips := s.ips + i }) k m).map
        (fun p => p.2.clicks)).sum
      = (m.map (fun p => p.2.clicks)).sum + c := by
  induction m with
  | nil => simp [alUpdate, subDefault]
  | cons p rest ih =>
    obtain ⟨k', v⟩ := p
    by_cases hk : k' = k
    · subst hk; simp [alUpdate]; omega
    · simp [alUpdate, hk, ih]; omega

/-- Updating one sub-entry by `clicks += c, ips += i` raises the sum of the
sub-row ips by exactly `i`. -/
theorem sum_ips_alUpdate (c i : Nat) (k : String × String)
    (m : List ((String × String) × SubStat)) :
    ((alUpdate subDefault (fun s => { s with clicks := s.clicks + c, ips := s.ips + i }) k m).map
        (fun p => p.2.ips)).sum
      = (m.map (fun p => p.2.ips)).sum + i := by
  induction m with
  | nil => simp [alUpdate, subDefault]
  | cons p rest ih =>
    obtain ⟨k', v⟩ := p
    by_cases hk : k' = k
    · subst hk; simp [alUpdate]; omega
    · simp [alUpdate, hk, ih]; omega

/-! ## Characterization of the aggregation fold -/

theorem clicks_fold (rows : List Row) (init : Domains) (dom : String) :
    (alFind dAggDefault dom (rows.foldl foldRow init)).clicks
      = (alFind dAggDefault dom init).clicks
        + ((rowsFor rows dom).map (fun r => r.ViewsCount)).sum := by
  induction rows generalizing init with
  | nil => simp [rowsFor]
  | cons r rest ih =>
    rw [List.foldl_cons, ih]
    by_cases h : r.Domain = dom
    · subst h
      have h2 : (alFind dAggDefault r.Domain (foldRow init r)).clicks
          = (alFind dAggDefault r.Domain init).clicks + r.ViewsCount := by
        unfold foldRow; rw [alFind_alUpdate_same]
      rw [h2]
      simp [rowsFor, List.filter_cons]
      omega
    · have h2 : alFind dAggDefault dom (foldRow init r) = alFind dAggDefault dom init := by
        unfold foldRow
        exact alFind_alUpdate_ne _ _ _ _ _ (fun e => h e.symm)
      rw [h2]
      simp [rowsFor, List.filter_cons, h]

theorem ips_fold (rows : List Row) (init : Domains) (dom : String) :
    (alFind dAggDefault dom (rows.foldl foldRow init)).ips
      = (alFind dAggDefault dom init).ips
        + ((rowsFor rows dom).map (fun r => r.UniqueIpCount)).sum := by
  induction rows generalizing init with
  | nil => simp [rowsFor]
  | cons r rest ih =>
    rw [List.foldl_cons, ih]
    by_cases h : r.Domain = dom
    · subst h
      have h2 : (alFind dAggDefault r.Domain (foldRow init r)).ips
          = (alFind dAggDefault r.Domain init).ips + r.UniqueIpCount := by
        unfold foldRow; rw [alFind_alUpdate_same]
      rw [h2]
      simp [rowsFor, List.filter_cons]
      omega
    · have h2 : alFind dAggDefault dom (foldRow init r) = alFind dAggDefault dom init := by
        unfold foldRow
        exact alFind_alUpdate_ne _ _ _ _ _ (fun e => h e.symm)
      rw [h2]
      simp [rowsFor, List.filter_cons, h]

theorem dtype_fold (rows : List Row) (init : Domains) (dom : String) :
    (alFind dAggDefault dom (rows.foldl foldRow init)).dtype
      = (alFind dAggDefault dom init).dtype := by
  induction rows generalizing init with
  | nil => simp
  | cons r rest ih =>
    rw [List.foldl_cons, ih]
    by_cases h : r.Domain = dom
    · subst h
      unfold foldRow; rw [alFind_alUpdate_same]
    · unfold foldRow
      rw [alFind_alUpdate_ne _ _ _ _ _ (fun e => h e.symm)]

theorem sub_fold (rows : List Row) (init : Domains) (dom : String) (key : String × String) :
    alFind subDefault key (alFind dAggDefault dom (rows.foldl foldRow init)).rows
      = { clicks := (alFind subDefault key (alFind dAggDefault dom init).rows).clicks
            + ((rowsForKey rows dom key).map (fun r => r.ViewsCount)).sum
          ips := (alFind subDefault key (alFind dAggDefault dom init).rows).ips
            + ((rowsForKey rows dom key).map (fun r => r.UniqueIpCount)).sum } := by
  induction rows generalizing init with
  | nil => simp [rowsForKey]
  | cons r rest ih =>
    rw [List.foldl_cons, ih]
    by_cases h : r.Domain = dom
    · subst h
      have hent : alFind dAggDefault r.Domain (foldRow init r)
          = { alFind dAggDefault r.Domain init with
              clicks := (alFind dAggDefault r.Domain init).clicks + r.ViewsCount
              ips := (alFind dAggDefault r.Domain init).ips + r.UniqueIpCount
              rows := alUpdate subDefault
                (fun s => { s with clicks := s.clicks + r.ViewsCount, ips := s.ips + r.UniqueIpCount })
                (r.Company, r.EndUrlDomain) (alFind dAggDefault r.Domain init).rows } := by
        unfold foldRow; rw [alFind_alUpdate_same]
      rw [hent]
      by_cases hk : (r.Company, r.EndUrlDomain) = key
      · subst hk
        rw [show (alFind subDefault (r.Company, r.EndUrlDomain)
            (alUpdate subDefault
              (fun s => { s with clicks := s.clicks + r.ViewsCount, ips := s.ips + r.UniqueIpCount })
              (r.Company, r.EndUrlDomain) (alFind dAggDefault r.Domain init).rows))
            = { clicks := (alFind subDefault (r.Company, r.EndUrlDomain)
                  (alFind dAggDefault r.Domain init).rows).clicks + r.ViewsCount
                ips := (alFind subDefault (r.Company, r.EndUrlDomain)
                  (alFind dAggDefault r.Domain init).rows).ips + r.UniqueIpCount }
          from alFind_alUpdate_same _ _ _ _]
        simp [rowsForKey, List.filter_cons]
        constructor <;> omega
      · rw [alFind_alUpdate_ne _ _ _ _ _ (fun e => hk e.symm)]
        simp [rowsForKey, List.filter_cons, hk]
    · have h2 : alFind dAggDefault dom (foldRow init r) = alFind dAggDefault dom init := by
        unfold foldRow
        exact alFind_alUpdate_ne _ _ _ _ _ (fun e => h e.symm)
      rw [h2]
      simp [rowsForKey, List.filter_cons, h]

/-! ## Shell-loop lemmas -/

theorem shells_aux (reg : List TenantRow) (ds : Domains)
    (h : ∀ dom, (alFind dAggDefault dom ds).clicks = 0 ∧ (alFind dAggDefault dom ds).ips = 0
      ∧ (alFind dAggDefault dom ds).rows = []) :
    ∀ dom, (alFind dAggDefault dom (reg.foldl shellStep ds)).clicks = 0
      ∧ (alFind dAggDefault dom (reg.foldl shellStep ds)).ips = 0
      ∧ (alFind dAggDefault dom (reg.foldl shellStep ds)).rows = [] := by
  induction reg generalizing ds with
  | nil => exact h
  | cons r rest ih =>
    rw [List.foldl_cons]
    apply ih
    intro dom
    unfold shellStep
    by_cases hb : r.Domain = ""
    · simp only [if_pos hb]
      exact h dom
    · simp only [if_neg hb]
      by_cases hd : r.Domain = dom
      · subst hd
        rw [alFind_alUpdate_same]
        exact ⟨(h r.Domain).1, (h r.Domain).2.1, (h r.Domain).2.2⟩
      · rw [alFind_alUpdate_ne _ _ _ _ _ (fun e => hd e.symm)]
        exact h dom

theorem shells_entry (reg : List TenantRow) (dom : String) :
    (alFind dAggDefault dom (buildShells reg)).clicks = 0
      ∧ (alFind dAggDefault dom (buildShells reg)).ips = 0
      ∧ (alFind dAggDefault dom (buildShells reg)).rows = [] :=
  shells_aux reg [] (fun _ => by simp [alFind, dAggDefault]) dom

theorem shells_dtype_aux (reg : List TenantRow) (ds : Domains) (dom : String) :
    (alFind dAggDefault dom (reg.foldl shellStep ds)).dtype
      = reg.foldl (fun acc r => if r.Domain ≠ "" ∧ r.Domain = dom then r.DomainType else acc)
          ((alFind dAggDefault dom ds).dtype) := by
  induction reg generalizing ds with
  | nil => rfl
  | cons r rest ih =>
    rw [List.foldl_cons, List.foldl_cons, ih]
    congr 1
    unfold shellStep
    by_cases hb : r.Domain = ""
    · simp [hb]
    · by_cases hd : r.Domain = dom
      · subst hd
        simp only [if_neg hb]
        rw [alFind_alUpdate_same]
        simp [hb]
      · have : ¬(r.Domain ≠ "" ∧ r.Domain = dom) := fun hc => hd hc.2
        simp only [if_neg hb, if_neg this]
        rw [alFind_alUpdate_ne _ _ _ _ _ (fun e => hd e.symm)]

theorem shells_dtype (reg : List TenantRow) (dom : String) :
    (alFind dAggDefault dom (buildShells reg)).dtype = lastTypeFor reg dom := by
  unfold buildShells lastTypeFor
  rw [shells_dtype_aux]
  rfl

theorem shells_keys_aux (reg : List TenantRow) (ds : Domains) :
    (reg.foldl shellStep ds).map Prod.fst
      = firstDedupAux ((reg.map (fun r => r.Domain)).filter (fun s => !(s == "")))
          (ds.map Prod.fst) := by
  induction reg generalizing ds with
  | nil => rfl
  | cons r rest ih =>
    rw [List.foldl_cons, ih, List.map_cons, List.filter_cons]
    by_cases hb : r.Domain = ""
    · simp only [hb]
      have hfalse : (!("" == "")) = false := rfl
      rw [hfalse]
      unfold shellStep
      simp [hb]
    · have hcond : (!(r.Domain == "")) = true := by
        simp [hb]
      rw [if_pos hcond]
      have hstep : (shellStep ds r).map Prod.fst
          = if r.Domain ∈ ds.map Prod.fst then ds.map Prod.fst
            else ds.map Prod.fst ++ [r.Domain] := by
        unfold shellStep
        rw [if_neg hb]
        by_cases hm : r.Domain ∈ ds.map Prod.fst
        · rw [if_pos hm]; exact alUpdate_keys_mem _ _ _ _ hm
        · rw [if_neg hm]; exact alUpdate_keys_notmem _ _ _ _ hm
      rw [hstep]
      rfl

theorem buildShells_keys (reg : List TenantRow) :
    (buildShells reg).map Prod.fst
      = firstDedup ((reg.map (fun r => r.Domain)).filter (fun s => !(s == ""))) := by
  unfold buildShells firstDedup
  rw [shells_keys_aux]
  rfl

theorem foldRow_keys (ds : Domains) (r : Row) (h : r.Domain ∈ ds.map Prod.fst) :
    (foldRow ds r).map Prod.fst = ds.map Prod.fst := by
  unfold foldRow
  exact alUpdate_keys_mem _ _ _ _ h

theorem foldRows_keys (rows : List Row) (ds : Domains)
    (h : ∀ r ∈ rows, r.Domain ∈ ds.map Prod.fst) :
    (rows.foldl foldRow ds).map Prod.fst = ds.map Prod.fst := by
  induction rows generalizing ds with
  | nil => rfl
  | cons r rest ih =>
    rw [List.foldl_cons]
    have h1 : r.Domain ∈ ds.map Prod.fst := h r (List.mem_cons_self _ _)
    have hk := foldRow_keys ds r h1
    rw [ih (foldRow ds r) (fun r' hr' => by rw [hk]; exact h r' (List.mem_cons_of_mem _ hr')), hk]

/-! ## First-occurrence dedup lemmas -/

theorem mem_firstDedupAux {α : Type} [DecidableEq α] (l acc : List α) (a : α) :
    a ∈ firstDedupAux l acc ↔ a ∈ acc ∨ a ∈ l := by
  induction l generalizing acc with
  | nil => simp [firstDedupAux]
  | cons b rest ih =>
    unfold firstDedupAux
    by_cases hb : b ∈ acc
    · rw [if_pos hb, ih]
      simp only [List.mem_cons]
      constructor
      · rintro (h | h)
        · exact Or.inl h
        · exact Or.inr (Or.inr h)
      · rintro (h | h | h)
        · exact Or.inl h
        · exact Or.inl (h ▸ hb)
        · exact Or.inr h
    · rw [if_neg hb, ih]
      simp only [List.mem_append, List.mem_singleton, List.mem_cons]
      tauto

theorem mem_firstDedup {α : Type} [DecidableEq α] (l : List α) (a : α) :
    a ∈ firstDedup l ↔ a ∈ l := by
  unfold firstDedup
  rw [mem_firstDedupAux]
  simp

theorem nodup_firstDedupAux {α : Type} [DecidableEq α] (l acc : List α) (h : acc.Nodup) :
    (firstDedupAux l acc).Nodup := by
  induction l generalizing acc with
  | nil => exact h
  | cons b rest ih =>
    unfold firstDedupAux
    by_cases hb : b ∈ acc
    · rw [if_pos hb]; exact ih _ h
    · rw [if_neg hb]
      apply ih
      rw [List.nodup_append]
      exact ⟨h, List.nodup_singleton b, by simpa using hb⟩

theorem nodup_firstDedup {α : Type} [DecidableEq α] (l : List α) :
    (firstDedup l).Nodup :=
  nodup_firstDedupAux l [] List.nodup_nil

/-! ## Fan-out collection lemmas -/

theorem collect_all_ok (fs : List (Except String (List Row)))
    (h : ∀ f ∈ fs, ∃ l, f = Except.ok l) :
    collectResults fs = Except.ok ((fs.map okD).flatten) := by
  induction fs with
  | nil => rfl
  | cons f rest ih =>
    obtain ⟨l, hl⟩ := h f (List.mem_cons_self _ _)
    subst hl
    rw [collectResults, ih (fun g hg => h g (List.mem_cons_of_mem _ hg))]
    rfl

theorem collect_error_of_mem (fs : List (Except String (List Row)))
    (f : Except String (List Row)) (hf : f ∈ fs) (h : ∀ l, f ≠ Except.ok l) :
    ∃ msg, collectResults fs = Except.error msg := by
  induction fs with
  | nil => simp at hf
  | cons g rest ih =>
    rcases List.mem_cons.mp hf with rfl | hmem
    · cases f with
      | error e => exact ⟨e, rfl⟩
      | ok l => exact absurd rfl (h l)
    · cases g with
      | error e => exact ⟨e, rfl⟩
      | ok l =>
        obtain ⟨msg, hm⟩ := ih hmem
        refine ⟨msg, ?_⟩
        rw [collectResults, hm]
        rfl

theorem collect_middle_ok_nil (fs1 fs2 : List (Except String (List Row))) :
    collectResults (fs1 ++ Except.ok [] :: fs2) = collectResults (fs1 ++ fs2) := by
  induction fs1 with
  | nil =>
    rw [List.nil_append, List.nil_append, collectResults]
    cases h : collectResults fs2 <;> simp [Except.map]
  | cons g rest ih =>
    cases g with
    | error e => rfl
    | ok l =>
      rw [List.cons_append, List.cons_append, collectResults, collectResults, ih]

theorem collect_ok_mem (fs : List (Except String (List Row))) (out : List Row)
    (h : collectResults fs = Except.ok out) (r : Row) (hr : r ∈ out) :
    ∃ l, Except.ok l ∈ fs ∧ r ∈ l := by
  induction fs generalizing out with
  | nil =>
    rw [collectResults] at h
    cases h
    simp at hr
  | cons g rest ih =>
    cases g with
    | error e => simp [collectResults] at h
    | ok l =>
      rw [collectResults] at h
      cases hrest : collectResults rest with
      | error e => rw [hrest] at h; simp [Except.map] at h
      | ok acc =>
        rw [hrest] at h
        have hout : out = l ++ acc := by
          simpa [Except.map] using h.symm
        subst hout
        rcases List.mem_append.mp hr with hl | hacc
        · exact ⟨l, List.mem_cons_self _ _, hl⟩
        · obtain ⟨l', hl', hr'⟩ := ih acc hrest hacc
          exact ⟨l', List.mem_cons_of_mem _ hl', hr'⟩

/-- Every record emitted by `fetch_views` carries the tenant's domain name
(the final `$project` stage sets `Domain: domain` on every group). -/
theorem fetch_views_domain (domain : String) (events : List Event) (emp dt : String)
    (mn mx : Int) (r : Row) (h : r ∈ fetch_views domain events emp dt mn mx) :
    r.Domain = domain := by
  unfold fetch_views at h
  rw [List.mem_map] at h
  obtain ⟨k, _, hk⟩ := h
  rw [← hk]

/-- Every record of a successful `process_domain` result carries the
tenant row's (necessarily non-blank) domain name. -/
theorem process_domain_ok_domain (env : FanEnv) (mn mx : Int) (row : TenantRow)
    (l : List Row) (h : process_domain env mn mx row = Except.ok l)
    (r : Row) (hr : r ∈ l) :
    r.Domain = row.Domain ∧ row.Domain ≠ "" := by
  unfold process_domain at h
  split at h
  · rename_i hguard
    cases h
    simp at hr
  · rename_i hguard
    have hdom : row.Domain ≠ "" := by
      intro he
      apply hguard
      simp [he]
    split at h
    · cases h
      simp at hr
    · rename_i rec hrec
      cases hev : env.fetchEvents row rec with
      | error e => rw [hev] at h; simp [Except.map] at h
      | ok evs =>
        rw [hev] at h
        have hl : l = fetch_views row.Domain evs row.EmployerId row.DomainType mn mx := by
          simpa [Except.map] using h.symm
        subst hl
        exact ⟨fetch_views_domain _ _ _ _ _ _ r hr, hdom⟩

/-! ## Stable descending sort lemmas -/

theorem mem_insertDesc {α : Type} (key : α → Nat) (x a : α) (l : List α) :
    a ∈ insertDesc key x l ↔ a = x ∨ a ∈ l := by
  induction l with
  | nil => simp [insertDesc]
  | cons y ys ih =>
    unfold insertDesc
    by_cases h : key x < key y
    · rw [if_pos h]
      simp only [List.mem_cons, ih]
      tauto
    · rw [if_neg h]
      simp only [List.mem_cons]

theorem pairwise_insertDesc {α : Type} (key : α → Nat) (x : α) (l : List α)
    (h : l.Pairwise (fun a b => key b ≤ key a)) :
    (insertDesc key x l).Pairwise (fun a b => key b ≤ key a) := by
  induction l with
  | nil => simp [insertDesc]
  | cons y ys ih =>
    rw [List.pairwise_cons] at h
    obtain ⟨hy, hys⟩ := h
    unfold insertDesc
    by_cases hlt : key x < key y
    · rw [if_pos hlt, List.pairwise_cons]
      constructor
      · intro z hz
        rcases (mem_insertDesc key x z ys).mp hz with rfl | hz'
        · exact Nat.le_of_lt hlt
        · exact hy z hz'
      · exact ih hys
    · rw [if_neg hlt, List.pairwise_cons]
      constructor
      · intro z hz
        rcases List.mem_cons.mp hz with rfl | hz'
        · omega
        · have := hy z hz'
          omega
      · exact List.pairwise_cons.mpr ⟨hy, hys⟩

theorem sortDesc_pairwise {α : Type} (key : α → Nat) (l : List α) :
    (sortDesc key l).Pairwise (fun a b => key b ≤ key a) := by
  induction l with
  | nil => simp [sortDesc]
  | cons x xs ih => exact pairwise_insertDesc key x _ ih

theorem filter_insertDesc {α : Type} (key : α → Nat) (c : Nat) (x : α) (l : List α) :
    (insertDesc key x l).filter (fun a => decide (key a = c))
      = if key x = c then x :: l.filter (fun a => decide (key a = c))
        else l.filter (fun a => decide (key a = c)) := by
  induction l with
  | nil =>
    unfold insertDesc
    by_cases hc : key x = c <;> simp [List.filter_cons, hc]
  | cons y ys ih =>
    unfold insertDesc
    by_cases hlt : key x < key y
    · rw [if_pos hlt, List.filter_cons, ih]
      by_cases hc : key x = c
      · have hyc : ¬(key y = c) := by omega
        simp [hc, hyc, List.filter_cons]
      · simp [hc, List.filter_cons]
    · rw [if_neg hlt, List.filter_cons]
      by_cases hc : key x = c <;> simp [hc]

theorem sortDesc_filter {α : Type} (key : α → Nat) (c : Nat) (l : List α) :
    (sortDesc key l).filter (fun a => decide (key a = c))
      = l.filter (fun a => decide (key a = c)) := by
  induction l with
  | nil => rfl
  | cons x xs ih =>
    rw [sortDesc, filter_insertDesc, List.filter_cons]
    by_cases hc : key x = c <;> simp [hc, ih]

/-! ## Persistence lemmas -/

/-- The persistence step never raises: the `if all_rows:` guard keeps the
empty list away from `insert_many`, and the result state is the deleted
state plus the stamped records (nothing when the run collected nothing). -/
theorem persistRun_ok (st : List (Row × Nat)) (d : String) (rows : List Row) (now : Nat) :
    persistRun st d rows now
      = Except.ok (delete_many st d ++ (if rows.isEmpty then [] else stamp rows now)) := by
  cases rows with
  | nil => simp [persistRun]
  | cons r rest =>
    simp [persistRun, insert_many, stamp]

theorem filter_delete_many (st : List (Row × Nat)) (d : String) :
    (delete_many st d).filter (fun s => decide (s.1.Date = d)) = [] := by
  unfold delete_many
  induction st with
  | nil => rfl
  | cons s rest ih =>
    rw [List.filter_cons]
    by_cases h : s.1.Date = d
    · simp [h, ih]
    · simp [h, List.filter_cons, ih]

/-- The fold keeps every domain entry's totals equal to the sums of its
sub-rows whenever the initial state has that property. -/
theorem invar_fold (rows : List Row) (init : Domains)
    (h : ∀ dom, (alFind dAggDefault dom init).clicks = subSumClicks (alFind dAggDefault dom init)
      ∧ (alFind dAggDefault dom init).ips = subSumIps (alFind dAggDefault dom init)) :
    ∀ dom, (alFind dAggDefault dom (rows.foldl foldRow init)).clicks
        = subSumClicks (alFind dAggDefault dom (rows.foldl foldRow init))
      ∧ (alFind dAggDefault dom (rows.foldl foldRow init)).ips
        = subSumIps (alFind dAggDefault dom (rows.foldl foldRow init)) := by
  induction rows generalizing init with
  | nil => exact h
  | cons r rest ih =>
    rw [List.foldl_cons]
    apply ih
    intro dom
    by_cases hd : r.Domain = dom
    · subst hd
      have hent : alFind dAggDefault r.Domain (foldRow init r)
          = { alFind dAggDefault r.Domain init with
              clicks := (alFind dAggDefault r.Domain init).clicks + r.ViewsCount
              ips := (alFind dAggDefault r.Domain init).ips + r.UniqueIpCount
              rows := alUpdate subDefault
                (fun s => { s with clicks := s.clicks + r.ViewsCount, ips := s.ips + r.UniqueIpCount })
                (r.Company, r.EndUrlDomain) (alFind dAggDefault r.Domain init).rows } := by
        unfold foldRow; rw [alFind_alUpdate_same]
      rw [hent]
      unfold subSumClicks subSumIps
      constructor
      · show (alFind dAggDefault r.Domain init).clicks + r.ViewsCount
            = ((alUpdate subDefault
                (fun s => { s with clicks := s.clicks + r.ViewsCount, ips := s.ips + r.UniqueIpCount })
                (r.Company, r.EndUrlDomain) (alFind dAggDefault r.Domain init).rows).map
                  (fun p => p.2.clicks)).sum
        rw [sum_clicks_alUpdate]
        have hc := (h r.Domain).1
        unfold subSumClicks at hc
        rw [hc]
      · show (alFind dAggDefault r.Domain init).ips + r.UniqueIpCount
            = ((alUpdate subDefault
                (fun s => { s with clicks := s.clicks + r.ViewsCount, ips := s.ips + r.UniqueIpCount })
                (r.Company, r.EndUrlDomain) (alFind dAggDefault r.Domain init).rows).map
                  (fun p => p.2.ips)).sum
        rw [sum_ips_alUpdate]
        have hi := (h r.Domain).2
        unfold subSumIps at hi
        rw [hi]
    · have h2 : alFind dAggDefault dom (foldRow init r) = alFind dAggDefault dom init := by
        unfold foldRow
        exact alFind_alUpdate_ne _ _ _ _ _ (fun e => hd e.symm)
      rw [h2]
      exact h dom

/-- Domain keys of the built aggregate, when every collected record's
domain comes from the registry: exactly the first occurrences of the
distinct non-empty registry domain names. -/
theorem buildDomains_keys (reg : List TenantRow) (rows : List Row)
    (h : ∀ r ∈ rows, r.Domain ≠ "" ∧ r.Domain ∈ reg.map (fun t => t.Domain)) :
    (buildDomains reg rows).map Prod.fst
      = firstDedup ((reg.map (fun t => t.Domain)).filter (fun s => !(s == ""))) := by
  unfold buildDomains
  rw [foldRows_keys, buildShells_keys]
  intro r hr
  rw [buildShells_keys, mem_firstDedup, List.mem_filter]
  exact ⟨(h r hr).2, by simp [(h r hr).1]⟩

/-! ## The verified properties -/

/-- C2: for every registry, collected record list and domain, the
aggregate's per-domain `clicks` total equals the sum of `clicks` over all
of that domain's (company, destination host) sub-rows and equals the sum
of `ViewsCount` over all records carrying that domain name; the same
additivity holds for `ips` versus the sub-row `ips` (additive across
groups, with no global deduplication). -/
theorem c2_aggregation_additivity (reg : List TenantRow) (rows : List Row) (dom : String) :
    (alFind dAggDefault dom (buildDomains reg rows)).clicks
        = subSumClicks (alFind dAggDefault dom (buildDomains reg rows))
      ∧ (alFind dAggDefault dom (buildDomains reg rows)).clicks
        = ((rowsFor rows dom).map (fun r => r.ViewsCount)).sum
      ∧ (alFind dAggDefault dom (buildDomains reg rows)).ips
        = subSumIps (alFind dAggDefault dom (buildDomains reg rows))
      ∧ (alFind dAggDefault dom (buildDomains reg rows)).ips
        = ((rowsFor rows dom).map (fun r => r.UniqueIpCount)).sum := by
  have hsh : ∀ dom', (alFind dAggDefault dom' (buildShells reg)).clicks
        = subSumClicks (alFind dAggDefault dom' (buildShells reg))
      ∧ (alFind dAggDefault dom' (buildShells reg)).ips
        = subSumIps (alFind dAggDefault dom' (buildShells reg)) := by
    intro dom'
    obtain ⟨hc, hi, hr⟩ := shells_entry reg dom'
    unfold subSumClicks subSumIps
    rw [hc, hi, hr]
    exact ⟨rfl, rfl⟩
  have hinv := invar_fold rows (buildShells reg) hsh dom
  refine ⟨hinv.1, ?_, hinv.2, ?_⟩
  · unfold buildDomains
    rw [clicks_fold, (shells_entry reg dom).1, Nat.zero_add]
  · unfold buildDomains
    rw [ips_fold, (shells_entry reg dom).2.1, Nat.zero_add]

/-- C10: folding any two permutations of the collected record list (the
nondeterministic `as_completed` collection orders) yields the same
per-domain totals and the same (company, destination host) sub-total
mapping for every domain. -/
theorem c10_order_invariance (reg : List TenantRow) (rows rows' : List Row)
    (hperm : rows.Perm rows') (dom : String) :
    (alFind dAggDefault dom (buildDomains reg rows)).clicks
        = (alFind dAggDefault dom (buildDomains reg rows')).clicks
      ∧ (alFind dAggDefault dom (buildDomains reg rows)).ips
        = (alFind dAggDefault dom (buildDomains reg rows')).ips
      ∧ ∀ key : String × String,
          alFind subDefault key (alFind dAggDefault dom (buildDomains reg rows)).rows
            = alFind subDefault key (alFind dAggDefault dom (buildDomains reg rows')).rows := by
  unfold buildDomains
  refine ⟨?_, ?_, ?_⟩
  · rw [clicks_fold, clicks_fold]
    congr 1
    exact List.Perm.sum_eq ((hperm.filter _).map _)
  · rw [ips_fold, ips_fold]
    congr 1
    exact List.Perm.sum_eq ((hperm.filter _).map _)
  · intro key
    rw [sub_fold, sub_fold]
    unfold rowsForKey
    rw [List.Perm.sum_eq ((hperm.filter _).map (fun r => r.ViewsCount)),
      List.Perm.sum_eq ((hperm.filter _).map (fun r => r.UniqueIpCount))]

/-- Registry and record pair used to evaluate the order-invariance of the
fold on a concrete completion-order swap. -/
def regW10 : List TenantRow :=
  [{ Domain := "tenantA", Database := "db1", DomainType := "programmatic",
     EmployerId := "", Collection := "" }]

/-- First concrete collected record. -/
def rowW10a : Row :=
  { Date := "2024-05-01", Company := "Acme", EndUrlDomain := "jobs.acme.com",
    ViewsCount := 10, UniqueIpCount := 4, Domain := "tenantA", DomainType := "programmatic" }

/-- Second concrete collected record. -/
def rowW10b : Row :=
  { Date := "2024-05-01", Company := "Beta", EndUrlDomain := "beta.example",
    ViewsCount := 3, UniqueIpCount := 1, Domain := "tenantA", DomainType := "programmatic" }

theorem c10_order_invariance_witness :
    (alFind dAggDefault "tenantA" (buildDomains regW10 [rowW10a, rowW10b])).clicks
        = (alFind dAggDefault "tenantA" (buildDomains regW10 [rowW10b, rowW10a])).clicks
      ∧ alFind subDefault ("Acme", "jobs.acme.com")
          (alFind dAggDefault "tenantA" (buildDomains regW10 [rowW10a, rowW10b])).rows
        = alFind subDefault ("Acme", "jobs.acme.com")
          (alFind dAggDefault "tenantA" (buildDomains regW10 [rowW10b, rowW10a])).rows :=
  ⟨(c10_order_invariance regW10 [rowW10a, rowW10b] [rowW10b, rowW10a]
      (List.Perm.swap rowW10b rowW10a []) "tenantA").1,
   (c10_order_invariance regW10 [rowW10a, rowW10b] [rowW10b, rowW10a]
      (List.Perm.swap rowW10b rowW10a []) "tenantA").2.2 ("Acme", "jobs.acme.com")⟩

/-- C3: running the persistence step twice for the same target date leaves
exactly the second run's records as the stored records for that date, and
an empty collected list skips the insert (the state is just the deleted
state, with no raised error). -/
theorem c3_persist_replace_by_date (st : List (Row × Nat)) (d : String)
    (rows1 rows2 : List Row) (t1 t2 : Nat) :
    ∃ st1 st2,
      persistRun st d rows1 t1 = Except.ok st1
      ∧ persistRun st1 d rows2 t2 = Except.ok st2
      ∧ st2.filter (fun s => decide (s.1.Date = d))
          = (stamp rows2 t2).filter (fun s => decide (s.1.Date = d))
      ∧ persistRun st d [] t1 = Except.ok (delete_many st d) := by
  refine ⟨_, _, persistRun_ok st d rows1 t1, persistRun_ok _ d rows2 t2, ?_, ?_⟩
  · rw [List.filter_append, filter_delete_many, List.nil_append]
    cases rows2 with
    | nil => simp [stamp]
    | cons r rest => simp
  · rw [persistRun_ok]
    simp

/-- An event timestamped exactly at the lower bound of the target day's
window, passing every non-time condition of the `$match` stage. -/
def evMidnight : Event :=
  { isBot := false, browserType := "Chrome", deviceType := "Desktop", isFromGoogle := true,
    createdDt := 0, createdDtStr := "2024-05-01T00:00:00Z",
    company := some "Acme", companyName := none,
    url := some "https://jobs.acme.com/apply?x=1", ipAddress := "1.2.3.4", employerId := "" }

/-- C4 fails on the code: an event whose creation timestamp is exactly
the start of the day window (`createdDt = MIN_DT`), satisfying every other
`$match` condition, is excluded by the query — the filter uses `$gt`, a
strict lower bound, while the stated window `[date 00:00, date+1 00:00)`
includes its lower endpoint. -/
theorem c4_counterexample :
    evMidnight.isBot = false
      ∧ evMidnight.browserType ≠ "Unknown"
      ∧ evMidnight.deviceType ≠ "Unknown"
      ∧ evMidnight.isFromGoogle = true
      ∧ (0 : Int) ≤ evMidnight.createdDt
      ∧ evMidnight.createdDt < 0 + 86400
      ∧ matchFilter 0 (0 + 86400) "" evMidnight = false := by
  refine ⟨rfl, ?_, ?_, rfl, by decide, by decide, by decide⟩
  · intro h
    exact absurd h (by decide)
  · intro h
    exact absurd h (by decide)

/-- C4 (amended): for every event passing the non-time `$match`
conditions, the query includes it if and only if its creation timestamp is
strictly between the day's start and the next day's start (`$gt MIN_DT`
and `$lt MAX_DT`, both bounds exclusive): in particular an event
timestamped exactly at date 00:00 UTC is excluded. -/
theorem c4_strict_window (mnDt : Int) (emp : String) (e : Event)
    (hb : e.isBot = false) (hbr : e.browserType ≠ "Unknown")
    (hdv : e.deviceType ≠ "Unknown") (hg : e.isFromGoogle = true)
    (hemp : emp = "" ∨ e.employerId = emp) :
    matchFilter mnDt (mnDt + 86400) emp e = true
      ↔ (mnDt < e.createdDt ∧ e.createdDt < mnDt + 86400) := by
  have hemp' : (emp == "" || e.employerId == emp) = true := by
    rcases hemp with h | h <;> simp [h]
  unfold matchFilter
  rw [hemp']
  simp [hb, hg, bne_iff_ne, hbr, hdv]

/-- A concrete event strictly inside the day window. -/
def evInWindow : Event :=
  { isBot := false, browserType := "Chrome", deviceType := "Desktop", isFromGoogle := true,
    createdDt := 3600, createdDtStr := "2024-05-01T01:00:00Z",
    company := some "Acme", companyName := none,
    url := some "https://jobs.acme.com/apply?x=1", ipAddress := "1.2.3.4", employerId := "" }

theorem c4_strict_window_witness :
    matchFilter 0 (0 + 86400) "" evInWindow = true
      ↔ ((0 : Int) < evInWindow.createdDt ∧ evInWindow.createdDt < 0 + 86400) :=
  c4_strict_window 0 "" evInWindow rfl (by intro h; exact absurd h (by decide))
    (by intro h; exact absurd h (by decide)) rfl (Or.inl rfl)

/-- C5: the derived destination host is the third slash-delimited segment
of the url string, and the empty string when the url is absent or the
split has no third segment; concretely `https://jobs.acme.com/apply?x=1`
gives `jobs.acme.com`, `not-a-url` gives `""` and a missing url gives
`""`. -/
theorem c5_end_url_domain :
    (∀ s : String, endUrlDomain (some s)
        = match splitChar '/' s.data with
          | _ :: _ :: x :: _ => String.mk x
          | _ => "")
      ∧ endUrlDomain none = ""
      ∧ endUrlDomain (some "https://jobs.acme.com/apply?x=1") = "jobs.acme.com"
      ∧ endUrlDomain (some "not-a-url") = ""
      ∧ (preOf { isBot := false, browserType := "Chrome", deviceType := "Desktop",
                 isFromGoogle := true, createdDt := 3600, createdDtStr := "2024-05-01T01:00:00Z",
                 company := none, companyName := none, url := none,
                 ipAddress := "1.2.3.4", employerId := "" }).endD = "" := by
  refine ⟨?_, rfl, by decide, by decide, rfl⟩
  intro s
  unfold endUrlDomain
  match h : splitChar '/' s.data with
  | [] => rfl
  | [a] => rfl
  | [a, b] => rfl
  | a :: b :: x :: r => rfl

/-- Registry for the two-record rendering scenario. -/
def regScn : List TenantRow :=
  [{ Domain := "tenantA", Database := "db1", DomainType := "programmatic",
     EmployerId := "", Collection := "" }]

/-- The scenario records: one sub-row with a real destination host and one
with an empty destination host. -/
def rowsScn : List Row :=
  [{ Date := "2024-05-01", Company := "Acme", EndUrlDomain := "jobs.acme.com",
     ViewsCount := 10, UniqueIpCount := 4, Domain := "tenantA", DomainType := "programmatic" },
   { Date := "2024-05-01", Company := "Acme", EndUrlDomain := "",
     ViewsCount := 3, UniqueIpCount := 1, Domain := "tenantA", DomainType := "programmatic" }]

/-- C6: a rendered block whose classification is not table-eligible never
carries a breakdown table; a table-eligible block's table contains no
sub-row with an empty destination host; and in the concrete scenario the
empty-host sub-row is excluded from the one-row table while still counted
in the domain totals (13 clicks, 5 ips). -/
theorem c6_table_gating :
    (∀ ds : Domains, ∀ b ∈ renderBlocks ds,
        is_table_domain b.domainType = false → b.table = none)
      ∧ (∀ ds : Domains, ∀ b ∈ renderBlocks ds, ∀ t, b.table = some t →
          ∀ kv ∈ t, kv.1.2 ≠ "")
      ∧ (alFind dAggDefault "tenantA" (buildDomains regScn rowsScn)).clicks = 13
      ∧ (alFind dAggDefault "tenantA" (buildDomains regScn rowsScn)).ips = 5
      ∧ renderBlocks (buildDomains regScn rowsScn)
          = [{ domain := "tenantA", domainType := "programmatic", clicks := 13, ips := 5,
               table := some [(("Acme", "jobs.acme.com"), { clicks := 10, ips := 4 })] }] := by
  refine ⟨?_, ?_, rfl, rfl, rfl⟩
  · intro ds b hb hnot
    unfold renderBlocks at hb
    rw [List.mem_map] at hb
    obtain ⟨p, _, rfl⟩ := hb
    simp only at hnot
    simp [hnot]
  · intro ds b hb t ht kv hkv
    unfold renderBlocks at hb
    rw [List.mem_map] at hb
    obtain ⟨p, _, rfl⟩ := hb
    simp only at ht
    by_cases he : is_table_domain p.2.dtype
    · rw [if_pos he] at ht
      cases ht
      have := (List.mem_filter.mp hkv).2
      simpa using this
    · rw [if_neg he] at ht
      cases ht

/-- A concrete aggregate whose single domain is not table-eligible. -/
def dsSummaryOnly : Domains :=
  [("siteX", { dtype := "Brand", clicks := 2, ips := 1,
               rows := [(("c", "h"), { clicks := 2, ips := 1 })] })]

/-- The block `renderBlocks` produces for `dsSummaryOnly`. -/
def blockSummaryOnly : Block :=
  { domain := "siteX", domainType := "Brand", clicks := 2, ips := 1, table := none }

theorem c6_table_gating_witness :
    blockSummaryOnly ∈ renderBlocks dsSummaryOnly
      ∧ is_table_domain blockSummaryOnly.domainType = false
      ∧ blockSummaryOnly.table = none :=
  ⟨by decide, by decide,
   c6_table_gating.1 dsSummaryOnly blockSummaryOnly (by decide) (by decide)⟩

/-- C7: the rendered domain list is the aggregate sorted by strictly
descending clicks wherever order changes (pairwise descending), and the
sort is stable: the sub-list of domains at any fixed clicks value is
unchanged, and the aggregate's own order is the first-occurrence order of
the non-empty registry domains; within a block, the breakdown table is
pairwise descending in clicks and its sort is stable in the same sense. -/
theorem c7_rendering_order (reg : List TenantRow) (rows : List Row)
    (h : ∀ r ∈ rows, r.Domain ≠ "" ∧ r.Domain ∈ reg.map (fun t => t.Domain)) :
    (sortDomains (buildDomains reg rows)).Pairwise (fun a b => b.2.clicks ≤ a.2.clicks)
      ∧ (∀ c, (sortDomains (buildDomains reg rows)).filter (fun p => decide (p.2.clicks = c))
          = (buildDomains reg rows).filter (fun p => decide (p.2.clicks = c)))
      ∧ (buildDomains reg rows).map Prod.fst
          = firstDedup ((reg.map (fun t => t.Domain)).filter (fun s => !(s == "")))
      ∧ (∀ ds : Domains, ∀ b ∈ renderBlocks ds, ∀ t, b.table = some t →
          t.Pairwise (fun a b => b.2.clicks ≤ a.2.clicks))
      ∧ (∀ rs : List ((String × String) × SubStat), ∀ c,
          (sortSubRows rs).filter (fun p => decide (p.2.clicks = c))
            = rs.filter (fun p => decide (p.2.clicks = c))) := by
  refine ⟨sortDesc_pairwise _ _, fun c => sortDesc_filter _ c _, buildDomains_keys reg rows h,
    ?_, fun rs c => sortDesc_filter _ c _⟩
  intro ds b hb t ht
  unfold renderBlocks at hb
  rw [List.mem_map] at hb
  obtain ⟨p, _, rfl⟩ := hb
  simp only at ht
  by_cases he : is_table_domain p.2.dtype
  · rw [if_pos he] at ht
    cases ht
    exact (sortDesc_pairwise _ p.2.rows).sublist (List.filter_sublist _)
  · rw [if_neg he] at ht
    cases ht

/-- Registry exercising the ordering theorem: two tenants, a blank row and
a duplicate domain name. -/
def regW7 : List TenantRow :=
  [{ Domain := "siteA", Database := "dbA", DomainType := "programmatic",
     EmployerId := "", Collection := "" },
   { Domain := "", Database := "dbX", DomainType := "", EmployerId := "", Collection := "" },
   { Domain := "siteB", Database := "dbB", DomainType := "Brand",
     EmployerId := "", Collection := "" },
   { Domain := "siteA", Database := "dbA", DomainType := "programmatic",
     EmployerId := "", Collection := "" }]

/-- Records exercising the ordering theorem, all from registry domains. -/
def rowsW7 : List Row :=
  [{ Date := "2024-05-01", Company := "Acme", EndUrlDomain := "jobs.acme.com",
     ViewsCount := 2, UniqueIpCount := 1, Domain := "siteA", DomainType := "programmatic" },
   { Date := "2024-05-01", Company := "Beta", EndUrlDomain := "b.example",
     ViewsCount := 7, UniqueIpCount := 3, Domain := "siteB", DomainType := "Brand" }]

theorem c7_rendering_order_witness :
    (sortDomains (buildDomains regW7 rowsW7)).Pairwise (fun a b => b.2.clicks ≤ a.2.clicks)
      ∧ (buildDomains regW7 rowsW7).map Prod.fst
        = firstDedup ((regW7.map (fun t => t.Domain)).filter (fun s => !(s == ""))) :=
  ⟨(c7_rendering_order regW7 rowsW7 (by decide)).1,
   (c7_rendering_order regW7 rowsW7 (by decide)).2.2.1⟩

/-- A registry row with a blank `Domain` field. -/
def blankRow : TenantRow :=
  { Domain := "", Database := "dbX", DomainType := "", EmployerId := "", Collection := "" }

/-- A store environment whose registry lookup always misses. -/
def envUnit : FanEnv :=
  { storeLookup := fun _ => none, fetchEvents := fun _ _ => .ok [] }

/-- C8 fails on the code in its "schedules no task" part: the submit loop
`[ex.submit(process_domain, r) for r in domains_rows]` schedules one
worker task per registry row, so a registry consisting of a single
blank-domain row still gets one task scheduled even though zero rows pass
the blank-field guard. -/
theorem c8_counterexample :
    blankRow.Domain = ""
      ∧ (futuresOf envUnit 0 86400 [blankRow]).length = 1
      ∧ (([blankRow] : List TenantRow).filter
          (fun r => !(r.Domain == "" || r.Database == ""))).length = 0 :=
  ⟨rfl, rfl, rfl⟩

/-- C8 (amended): a task is scheduled for every registry row, blank or
not; the blank-field guard runs inside the task, which returns an empty
list at once — zero records, a success rather than a failure — and
removing a blank row from anywhere in the registry leaves the fan-out's
collected output unchanged. -/
theorem c8_blank_guard (env : FanEnv) (mn mx : Int) :
    (∀ row : TenantRow, row.Domain = "" ∨ row.Database = "" →
        process_domain env mn mx row = Except.ok [])
      ∧ (∀ reg : List TenantRow, (futuresOf env mn mx reg).length = reg.length)
      ∧ (∀ (reg1 reg2 : List TenantRow) (row : TenantRow),
          row.Domain = "" ∨ row.Database = "" →
          collectResults (futuresOf env mn mx (reg1 ++ row :: reg2))
            = collectResults (futuresOf env mn mx (reg1 ++ reg2))) := by
  have hblank : ∀ row : TenantRow, row.Domain = "" ∨ row.Database = "" →
      process_domain env mn mx row = Except.ok [] := by
    intro row h
    unfold process_domain
    rcases h with h | h <;> simp [h]
  refine ⟨hblank, fun reg => List.length_map _ _, ?_⟩
  intro reg1 reg2 row h
  unfold futuresOf
  rw [List.map_append, List.map_cons, List.map_append, hblank row h,
    collect_middle_ok_nil]

theorem c8_blank_guard_witness :
    process_domain envUnit 0 86400 blankRow = Except.ok []
      ∧ collectResults (futuresOf envUnit 0 86400 ([blankRow] ++ []))
        = collectResults (futuresOf envUnit 0 86400 ([] ++ [])) :=
  ⟨(c8_blank_guard envUnit 0 86400).1 blankRow (Or.inl rfl),
   (c8_blank_guard envUnit 0 86400).2.2 [] [] blankRow (Or.inl rfl)⟩

/-- C9: when the collected record list is a successful fan-out result (the
futures are, in any completion order, the submitted per-row tasks), the
aggregate has exactly one shell per distinct non-empty registry domain
name, in first-occurrence registry order, carrying the classification the
shell loop wrote (the last registry row's `Domain Type` for that name),
and the summary's domain count equals the number of distinct non-empty
domain names — independently of how many tenants produced records. -/
theorem c9_domain_shells (env : FanEnv) (mn mx : Int) (reg : List TenantRow)
    (fs : List (Except String (List Row))) (rows : List Row)
    (hperm : fs.Perm (futuresOf env mn mx reg))
    (hok : collectResults fs = Except.ok rows) :
    (buildDomains reg rows).map Prod.fst
        = firstDedup ((reg.map (fun t => t.Domain)).filter (fun s => !(s == "")))
      ∧ ((buildDomains reg rows).map Prod.fst).Nodup
      ∧ (∀ dom : String, dom ∈ (buildDomains reg rows).map Prod.fst
          ↔ (dom ≠ "" ∧ dom ∈ reg.map (fun t => t.Domain)))
      ∧ (∀ dom : String,
          (alFind dAggDefault dom (buildDomains reg rows)).dtype = lastTypeFor reg dom)
      ∧ total_domains (buildDomains reg rows)
          = (firstDedup ((reg.map (fun t => t.Domain)).filter (fun s => !(s == "")))).length := by
  have hrows : ∀ r ∈ rows, r.Domain ≠ "" ∧ r.Domain ∈ reg.map (fun t => t.Domain) := by
    intro r hr
    obtain ⟨l, hlmem, hrl⟩ := collect_ok_mem fs rows hok r hr
    have hlf : Except.ok l ∈ futuresOf env mn mx reg := hperm.subset hlmem
    unfold futuresOf at hlf
    rw [List.mem_map] at hlf
    obtain ⟨row, hrow, hpd⟩ := hlf
    obtain ⟨hdom, hne⟩ := process_domain_ok_domain env mn mx row l hpd r hrl
    constructor
    · rw [hdom]; exact hne
    · rw [hdom, List.mem_map]; exact ⟨row, hrow, rfl⟩
  have hkeys := buildDomains_keys reg rows hrows
  refine ⟨hkeys, ?_, ?_, ?_, ?_⟩
  · rw [hkeys]; exact nodup_firstDedup _
  · intro dom
    rw [hkeys, mem_firstDedup, List.mem_filter]
    constructor
    · rintro ⟨hm, hne⟩
      refine ⟨by simpa using hne, hm⟩
    · rintro ⟨hne, hm⟩
      exact ⟨hm, by simpa using hne⟩
  · intro dom
    unfold buildDomains
    rw [dtype_fold, shells_dtype]
  · unfold total_domains
    rw [← hkeys, List.length_map]

/-- Registry exercising the shell theorem: a duplicate, a blank and a
second domain. -/
def regW9 : List TenantRow :=
  [{ Domain := "siteA", Database := "dbA", DomainType := "programmatic",
     EmployerId := "", Collection := "" },
   { Domain := "", Database := "dbX", DomainType := "", EmployerId := "", Collection := "" },
   { Domain := "siteB", Database := "dbB", DomainType := "Brand",
     EmployerId := "", Collection := "" },
   { Domain := "siteA", Database := "dbA", DomainType := "Direct Apply",
     EmployerId := "", Collection := "" }]

theorem c9_domain_shells_witness :
    total_domains (buildDomains regW9 ([] : List Row))
        = (firstDedup ((regW9.map (fun t => t.Domain)).filter (fun s => !(s == "")))).length
      ∧ (alFind dAggDefault "siteA" (buildDomains regW9 ([] : List Row))).dtype
        = lastTypeFor regW9 "siteA" :=
  ⟨(c9_domain_shells envUnit 0 86400 regW9 (futuresOf envUnit 0 86400 regW9) []
      (List.Perm.refl _) rfl).2.2.2.2,
   (c9_domain_shells envUnit 0 86400 regW9 (futuresOf envUnit 0 86400 regW9) []
      (List.Perm.refl _) rfl).2.2.2.1 "siteA"⟩

/-- Tenant rows and environment realising one succeeding and one raising
worker task. -/
def rowTenantA : TenantRow :=
  { Domain := "A", Database := "dbA", DomainType := "programmatic",
    EmployerId := "", Collection := "" }

/-- The tenant whose store connection raises. -/
def rowTenantB : TenantRow :=
  { Domain := "B", Database := "dbB", DomainType := "programmatic",
    EmployerId := "", Collection := "" }

/-- Environment where tenant B's connect/query raises and tenant A's store
holds one matching event. -/
def envAB : FanEnv :=
  { storeLookup := fun _ => some { mongo_uri := "mongodb://remote" }
    fetchEvents := fun row _ =>
      if row.Domain == "B" then .error "ServerSelectionTimeoutError" else .ok [evInWindow] }

/-- C1 fails on the code: the collection loop calls `f.result()` with no
try/except, so a raised store/connect/query failure for tenant B
propagates out of the fan-out — the loop returns no record list at all,
even though tenant A's task succeeded with a real record. -/
theorem c1_counterexample :
    collectResults (futuresOf envAB 0 86400 [rowTenantA, rowTenantB])
        = Except.error "ServerSelectionTimeoutError"
      ∧ process_domain envAB 0 86400 rowTenantA
        = Except.ok [{ Date := "2024-05-01", Company := "Acme", EndUrlDomain := "jobs.acme.com",
                       ViewsCount := 1, UniqueIpCount := 1, Domain := "A",
                       DomainType := "programmatic" }] :=
  ⟨rfl, rfl⟩

/-- C1 (amended): when no scheduled task raises, the fan-out returns the
concatenation of all task results (blank-config rows and store-registry
lookup misses contributing empty lists); but as soon as any completed
future holds a raised exception, the collection loop propagates an error
instead of returning records. -/
theorem c1_failure_isolation :
    (∀ (env : FanEnv) (mn mx : Int) (reg : List TenantRow),
        (∀ row ∈ reg, ∃ l, process_domain env mn mx row = Except.ok l) →
        collectResults (futuresOf env mn mx reg)
          = Except.ok (((futuresOf env mn mx reg).map okD).flatten))
      ∧ (∀ (fs : List (Except String (List Row))) (f : Except String (List Row)),
          f ∈ fs → (∀ l, f ≠ Except.ok l) → ∃ msg, collectResults fs = Except.error msg)
      ∧ (∀ (env : FanEnv) (mn mx : Int) (row : TenantRow),
          row.Domain = "" ∨ row.Database = "" ∨ env.storeLookup row.Database = none →
          process_domain env mn mx row = Except.ok []) := by
  refine ⟨?_, collect_error_of_mem, ?_⟩
  · intro env mn mx reg h
    apply collect_all_ok
    intro f hf
    unfold futuresOf at hf
    rw [List.mem_map] at hf
    obtain ⟨row, hrow, hpd⟩ := hf
    obtain ⟨l, hl⟩ := h row hrow
    exact ⟨l, by rw [← hpd, hl]⟩
  · intro env mn mx row h
    unfold process_domain
    rcases h with h | h | h
    · simp [h]
    · simp [h]
    · by_cases hb : (row.Domain == "" || row.Database == "") = true
      · simp [hb]
      · simp only [hb]
        rw [if_neg (by simp [hb]), h]

theorem c1_failure_isolation_witness :
    collectResults (futuresOf envAB 0 86400 [rowTenantA])
      = Except.ok (((futuresOf envAB 0 86400 [rowTenantA]).map okD).flatten) :=
  c1_failure_isolation.1 envAB 0 86400 [rowTenantA]
    (by
      intro row hrow
      rw [List.mem_singleton] at hrow
      subst hrow
      exact ⟨_, rfl⟩)

end ClicksReport
